import Mathlib

/-!
Verification of the Trajectory Simulation and Outlier Benchmark Engine of the
repository (src/app.py, section 5 "OUTLIER ANALYSIS" and its caller in the
Videos/Shorts tabs).

The Python functions are shallowly embedded as Lean functions.  Python float
arithmetic is modelled by exact rational arithmetic over ℚ; Python `int()`
truncation is modelled by `pyInt` (truncation towards zero).  The date
subtraction `(today - fromisoformat(publishedAt)).days` cannot be evaluated
inside the embedding, so a video record carries the resulting age in days
directly (`ageDays`), with `none` standing for the case in which
`datetime.fromisoformat` raises and the `except:` branch is taken.
-/

namespace Outlier

/-- Python `int()` applied to a float: truncation towards zero. -/
def pyInt (q : ℚ) : ℤ := if q < 0 then ⌈q⌉ else ⌊q⌋

/-- The per-video information handed to the engine (the `info_map` entries built
in the Videos/Shorts tabs): `viewCount`, `isShort`, and the parsed age
`(today - fromisoformat(publishedAt)).days` (`none` when parsing raises). -/
structure VideoInfo where
  viewCount : ℕ
  isShort : Bool
  ageDays : Option ℤ

/-- One row of the DataFrame built by `generate_historical_data`. -/
structure Row where
  videoId : String
  day : ℕ
  cumulative_views : ℤ

/-- The rows `generate_historical_data` emits for one video that survived the
category filter: skip when parsing fails, when `age_days < 3`, or when
`limit = min age_days max_days <= 0`; otherwise emit
`int((d+1) * (total / limit))` for `d in range(limit)`.  The float division
and multiplication are idealized here as exact rational arithmetic;
`video_rows_fp` below is the same computation with the binary64 roundings
kept, which is where the exactness of anchoring (claim C1) breaks. -/
def video_rows (vid : String) (info : VideoInfo) (max_days : ℤ) : List Row :=
  match info.ageDays with
  | none => []
  | some age_days =>
    if age_days < 3 then []
    else
      let limit := min age_days max_days
      if limit ≤ 0 then []
      else
        (List.range limit.toNat).map fun d =>
          { videoId := vid, day := d,
            cumulative_views :=
              pyInt (((d : ℚ) + 1) * ((info.viewCount : ℚ) / (limit : ℚ))) }

/-- Round a nonnegative rational to the nearest integer, ties to even (the
IEEE-754 significand rounding rule). -/
def roundNearestEven (m : ℚ) : ℤ :=
  if m - ⌊m⌋ < 1 / 2 then ⌊m⌋
  else if 1 / 2 < m - ⌊m⌋ then ⌊m⌋ + 1
  else if ⌊m⌋ % 2 = 0 then ⌊m⌋ else ⌊m⌋ + 1

/-- The IEEE-754 binary64 (Python float) value nearest to a rational:
round-to-nearest, ties-to-even, with a 53-bit significand.  This models the
float arithmetic of the source in the normal finite range, which covers every
value the trajectory computation produces for realistic view counts. -/
def roundDouble (q : ℚ) : ℚ :=
  if q = 0 then 0
  else if q < 0 then
    -((roundNearestEven ((-q) * 2 ^ (52 - Int.log 2 (-q))) : ℚ) * 2 ^ (Int.log 2 (-q) - 52))
  else (roundNearestEven (q * 2 ^ (52 - Int.log 2 q)) : ℚ) * 2 ^ (Int.log 2 q - 52)

/-- The rows of `generate_historical_data` for one video with the float
operations carried out the way Python actually executes them: the division
`total / limit` produces the binary64 value nearest the exact quotient, and
the product `(d+1) * (total / limit)` is again rounded to binary64 (the int
`d+1` converts to a double exactly).  `video_rows` is this computation with the
two roundings idealized away. -/
def video_rows_fp (vid : String) (info : VideoInfo) (max_days : ℤ) : List Row :=
  match info.ageDays with
  | none => []
  | some age_days =>
    if age_days < 3 then []
    else
      let limit := min age_days max_days
      if limit ≤ 0 then []
      else
        (List.range limit.toNat).map fun d =>
          { videoId := vid, day := d,
            cumulative_views :=
              pyInt (roundDouble (((d : ℚ) + 1) *
                roundDouble ((info.viewCount : ℚ) / (limit : ℚ)))) }

/-- Embedding of `generate_historical_data(video_map, max_days, is_short)`: the category
filter `is_short is not None and info["isShort"] != is_short` drops a video
before any row is produced for it. -/
def generate_historical_data (video_map : List (String × VideoInfo)) (max_days : ℤ)
    (is_short : Option Bool) : List Row :=
  video_map.flatMap fun p =>
    match is_short with
    | some b => if p.2.isShort = b then video_rows p.1 p.2 max_days else []
    | none => video_rows p.1 p.2 max_days

/-- One row of the DataFrame returned by `simulate_video_performance`. -/
structure PerfRow where
  day : ℕ
  cumulative_views : ℤ
  projected : Bool

/-- Embedding of `simulate_video_performance(video_info, bench_df)`: the target video's own
linear curve; a parse failure yields `age_days = 1`, ages below 1 are floored
to 1, and day `d` carries `int(viewCount * ((d+1)/age_days))`. -/
def simulate_video_performance (video_info : VideoInfo) : List PerfRow :=
  let parsed : ℤ := match video_info.ageDays with
    | none => 1
    | some a => a
  let age_days : ℤ := if parsed < 1 then 1 else parsed
  (List.range age_days.toNat).map fun d =>
    { day := d,
      cumulative_views :=
        pyInt ((video_info.viewCount : ℚ) * (((d : ℚ) + 1) / (age_days : ℚ))),
      projected := false }

/-- Linear interpolation between the order statistics of `s` at fractional
index `h` (the convention used by `pandas.Series.quantile` and
`numpy.percentile` with linear interpolation). -/
def interpAt (s : List ℚ) (h : ℚ) : ℚ :=
  if ⌊h⌋.toNat + 1 < s.length then
    s.getD ⌊h⌋.toNat 0 +
      (h - (⌊h⌋.toNat : ℚ)) * (s.getD (⌊h⌋.toNat + 1) 0 - s.getD ⌊h⌋.toNat 0)
  else s.getD (s.length - 1) 0

/-- The `quantile(q)` of a list of rationals, linear interpolation between order
statistics: sort, then interpolate at index `q * (n - 1)`. -/
def quantileLin (xs : List ℚ) (q : ℚ) : ℚ :=
  if (List.insertionSort (· ≤ ·) xs).length = 0 then 0
  else interpAt (List.insertionSort (· ≤ ·) xs)
    (q * (((List.insertionSort (· ≤ ·) xs).length : ℚ) - 1))

/-- One row of the benchmark DataFrame returned by `calculate_benchmark`. -/
structure BenchRow where
  day : ℕ
  median : ℚ
  count : ℕ
  lower_band : ℚ
  upper_band : ℚ
  channel_average : ℚ

/-- The distinct day indices of a historical DataFrame, in increasing order
(the group keys of `df.groupby("day")`). -/
def benchDays (df : List Row) : List ℕ :=
  List.insertionSort (· ≤ ·) (df.map fun r => r.day).dedup

/-- The `cumulative_views` column of the group of `df` with the given day. -/
def dayValues (df : List Row) (d : ℕ) : List ℚ :=
  (df.filter fun r => r.day == d).map fun r => (r.cumulative_views : ℚ)

/-- Embedding of `calculate_benchmark(df)`: group by day and take median, count, 25th and
75th percentile, and `channel_average = (lower_band + upper_band)/2`; an empty
DataFrame gives an empty benchmark. -/
def calculate_benchmark (df : List Row) : List BenchRow :=
  (benchDays df).map fun d =>
    let vals := dayValues df d
    let lower := quantileLin vals (1 / 4)
    let upper := quantileLin vals (3 / 4)
    { day := d, median := quantileLin vals (1 / 2), count := vals.length,
      lower_band := lower, upper_band := upper,
      channel_average := (lower + upper) / 2 }

/-- Embedding of `classify_outlier_score(view_count, channel_avg)`. -/
def classify_outlier_score (view_count channel_avg : ℚ) : String × ℚ :=
  if channel_avg ≤ 0 then ("Significant Positive Outlier", 9999 / 10)
  else
    let r := view_count / channel_avg
    if 2 ≤ r then ("Significant Positive Outlier", r)
    else if 3 / 2 ≤ r then ("Positive Outlier", r)
    else if 6 / 5 ≤ r then ("Slight Positive Outlier", r)
    else if 4 / 5 ≤ r then ("Normal Performance", r)
    else if 1 / 2 ≤ r then ("Slight Negative Outlier", r)
    else ("Significant Negative Outlier", r)

/-- Embedding of `bench["day"].max()` (the caller only evaluates it on nonempty benchmarks,
where the fold's base value 0 is absorbed). -/
def benchMaxDay (bench : List BenchRow) : ℕ :=
  (bench.map fun r => r.day).foldr max 0

/-- The caller's channel-average lookup:
`final_day = min(video_age - 1, bench["day"].max())`,
`row = bench.loc[bench["day"] == final_day]`, and `channel_avg = 1` when that
row is empty. -/
def lookup_channel_avg (bench : List BenchRow) (video_age : ℤ) : ℚ :=
  match bench.find? fun r => (r.day : ℤ) == min (video_age - 1) (benchMaxDay bench : ℤ) with
  | some r => r.channel_average
  | none => 1

/-- The lookup rule as the specification words it: the benchmark row whose
`dayIndex` is the largest index at most
`min targetDayIndex maxAvailableDayIndex`.  Written from the spec sentence,
for comparison against `lookup_channel_avg`. -/
def specLookupRow (bench : List BenchRow) (video_age : ℤ) : Option BenchRow :=
  List.argmax (fun r => r.day)
    (bench.filter fun r => decide ((r.day : ℤ) ≤ min (video_age - 1) (benchMaxDay bench : ℤ)))

/-- Outcome of one outlier evaluation in the Videos/Shorts tab. -/
inductive ScoreOutcome where
  | insufficientData : ScoreOutcome
  | emptyBenchmark : ScoreOutcome
  | scored : String → ℚ → ScoreOutcome

/-- The scoring control flow of the Videos/Shorts tabs: empty historical data
warns "Not enough data", an empty benchmark warns "Benchmark is empty", and
otherwise the looked-up channel average feeds `classify_outlier_score`. -/
def outlier_flow (info_map : List (String × VideoInfo)) (video_age : ℤ)
    (is_short : Bool) (sel_view_count : ℕ) : ScoreOutcome :=
  let df := generate_historical_data info_map video_age (some is_short)
  if df.isEmpty then ScoreOutcome.insufficientData
  else
    let bench := calculate_benchmark df
    if bench.isEmpty then ScoreOutcome.emptyBenchmark
    else
      let res := classify_outlier_score (sel_view_count : ℚ) (lookup_channel_avg bench video_age)
      ScoreOutcome.scored res.1 res.2

/-! Basic facts about `pyInt`. -/

theorem pyInt_of_nonneg {q : ℚ} (h : 0 ≤ q) : pyInt q = ⌊q⌋ := by
  simp [pyInt, not_lt.2 h]

theorem pyInt_intCast (z : ℤ) : pyInt (z : ℚ) = z := by
  unfold pyInt
  split <;> simp

theorem pyInt_natCast (n : ℕ) : pyInt (n : ℚ) = n := by
  have : ((n : ℤ) : ℚ) = (n : ℚ) := by push_cast; ring
  rw [← this, pyInt_intCast]

theorem pyInt_mono {a b : ℚ} (ha : 0 ≤ a) (hab : a ≤ b) : pyInt a ≤ pyInt b := by
  rw [pyInt_of_nonneg ha, pyInt_of_nonneg (le_trans ha hab)]
  exact Int.floor_le_floor hab

theorem pyInt_le_intCast {q : ℚ} {z : ℤ} (h0 : 0 ≤ q) (h : q ≤ (z : ℚ)) :
    pyInt q ≤ z := by
  rw [pyInt_of_nonneg h0]
  exact (Int.floor_le_floor h).trans (by simp)

/-! Shape of the simulated trajectories. -/

/-- The emitted row for day `d` of a video with the given view count and limit. -/
def mkRow (vid : String) (vc : ℕ) (limit : ℤ) (d : ℕ) : Row :=
  { videoId := vid, day := d,
    cumulative_views := pyInt (((d : ℚ) + 1) * ((vc : ℚ) / (limit : ℚ))) }

theorem video_rows_shape (vid : String) (info : VideoInfo) (max_days : ℤ) :
    video_rows vid info max_days = [] ∨
    ∃ a, info.ageDays = some a ∧ 3 ≤ a ∧ 0 < min a max_days ∧
      video_rows vid info max_days =
        (List.range (min a max_days).toNat).map
          (mkRow vid info.viewCount (min a max_days)) := by
  unfold video_rows
  cases hage : info.ageDays with
  | none => exact Or.inl rfl
  | some a =>
    by_cases h3 : a < 3
    · exact Or.inl (by simp [h3])
    · by_cases hlim : min a max_days ≤ 0
      · exact Or.inl (by simp [h3, hlim])
      · refine Or.inr ⟨a, rfl, by omega, by omega, ?_⟩
        simp only [if_neg h3, if_neg hlim]
        rfl

theorem mem_video_rows {vid : String} {info : VideoInfo} {max_days : ℤ} {row : Row}
    (h : row ∈ video_rows vid info max_days) :
    ∃ a, info.ageDays = some a ∧ 3 ≤ a ∧ 0 < min a max_days ∧
      row.videoId = vid ∧ (row.day : ℤ) < min a max_days ∧
      row.cumulative_views =
        pyInt (((row.day : ℚ) + 1) * ((info.viewCount : ℚ) / ((min a max_days : ℤ) : ℚ))) := by
  rcases video_rows_shape vid info max_days with hnil | ⟨a, hage, h3, hlim, heq⟩
  · rw [hnil] at h; cases h
  · rw [heq] at h
    rcases List.mem_map.1 h with ⟨d, hd, hrow⟩
    rw [List.mem_range] at hd
    refine ⟨a, hage, h3, hlim, ?_, ?_, ?_⟩
    · rw [← hrow]; rfl
    · have : row.day = d := by rw [← hrow]; rfl
      rw [this]; omega
    · rw [← hrow]
      rfl

theorem video_rows_cumulative_nonneg_le {vid : String} {info : VideoInfo} {max_days : ℤ}
    {row : Row} (h : row ∈ video_rows vid info max_days) :
    row.cumulative_views ≤ (info.viewCount : ℤ) := by
  rcases mem_video_rows h with ⟨a, _, _, hlim, _, hday, hcum⟩
  set limit : ℤ := min a max_days with hlimdef
  have hlq : (0 : ℚ) < (limit : ℚ) := by exact_mod_cast hlim
  have harg0 : (0 : ℚ) ≤ ((row.day : ℚ) + 1) * ((info.viewCount : ℚ) / (limit : ℚ)) := by
    positivity
  have hargle : ((row.day : ℚ) + 1) * ((info.viewCount : ℚ) / (limit : ℚ))
      ≤ ((info.viewCount : ℤ) : ℚ) := by
    have hd1 : ((row.day : ℚ) + 1) ≤ (limit : ℚ) := by
      have : (row.day : ℤ) + 1 ≤ limit := by omega
      exact_mod_cast this
    have := mul_le_mul_of_nonneg_right hd1
      (div_nonneg (by positivity) (le_of_lt hlq) :
        (0 : ℚ) ≤ (info.viewCount : ℚ) / (limit : ℚ))
    calc ((row.day : ℚ) + 1) * ((info.viewCount : ℚ) / (limit : ℚ))
        ≤ (limit : ℚ) * ((info.viewCount : ℚ) / (limit : ℚ)) := this
      _ = ((info.viewCount : ℤ) : ℚ) := by
          rw [mul_div_cancel₀]
          · push_cast; ring
          · exact ne_of_gt hlq
  rw [hcum]
  exact pyInt_le_intCast harg0 hargle

theorem simulate_shape (info : VideoInfo) :
    ∃ age : ℤ, 1 ≤ age ∧
      (∀ a, info.ageDays = some a → 1 ≤ a → age = a) ∧
      simulate_video_performance info =
        (List.range age.toNat).map fun d =>
          { day := d,
            cumulative_views := pyInt ((info.viewCount : ℚ) * (((d : ℚ) + 1) / (age : ℚ))),
            projected := false } := by
  unfold simulate_video_performance
  cases hage : info.ageDays with
  | none => exact ⟨1, le_refl 1, fun a ha => by simp [hage] at ha, by norm_num⟩
  | some a =>
    by_cases h1 : a < 1
    · exact ⟨1, le_refl 1, fun b hb hb1 => by have h := Option.some.inj hb; omega,
        by simp [h1]⟩
    · exact ⟨a, by omega, fun b hb _ => Option.some.inj hb,
        by simp [h1]⟩

theorem getD_range_map {α : Type} (n : ℕ) (f : ℕ → α) (dflt : α) (i : ℕ) (hi : i < n) :
    ((List.range n).map f).getD i dflt = f i := by
  rw [List.getD_eq_getElem _ dflt (by simpa using hi)]
  simp

theorem getLast?_range_map {α : Type} (n : ℕ) (f : ℕ → α) (hn : 0 < n) :
    ((List.range n).map f).getLast? = some (f (n - 1)) := by
  have hne : (List.range n).map f ≠ [] := by
    apply List.length_pos.mp
    simpa using hn
  rw [List.getLast?_eq_getLast_of_ne_nil hne]
  congr 1
  rw [List.getLast_eq_getElem]
  simp

/-- Anchoring under the exact-rational idealization of the float arithmetic:
an entity that passes the maturity filter (age at least 3 days), simulated to
any horizon at least its age, ends its trajectory at a last row whose
cumulative value equals its current metric (viewCount) exactly; the same holds
for the target's own curve from `simulate_video_performance`.  This is the
intent the code misses by one unit of float truncation in some cases — see
`C1_anchoring_float_failure`, which settles claim C1. -/
theorem anchoring_exact (vid : String) (info : VideoInfo) (horizon a : ℤ)
    (ha : info.ageDays = some a) (hmature : 3 ≤ a) (hhor : a ≤ horizon) :
    (∃ last, (video_rows vid info horizon).getLast? = some last ∧
      last.cumulative_views = (info.viewCount : ℤ)) ∧
    (∃ last, (simulate_video_performance info).getLast? = some last ∧
      last.cumulative_views = (info.viewCount : ℤ)) := by
  have hmin : min a horizon = a := min_eq_left hhor
  have ha0 : (0 : ℚ) < (a : ℚ) := by exact_mod_cast (by omega : (0 : ℤ) < a)
  have hcast : ((a.toNat : ℕ) : ℚ) = (a : ℚ) := by
    exact_mod_cast congrArg (Int.cast : ℤ → ℚ) (Int.toNat_of_nonneg (by omega : (0 : ℤ) ≤ a))
  have hn1 : (((a.toNat - 1 : ℕ)) : ℚ) = (a : ℚ) - 1 := by
    rw [Nat.cast_sub (by omega : 1 ≤ a.toNat), hcast, Nat.cast_one]
  constructor
  · have heq : video_rows vid info horizon =
        (List.range (min a horizon).toNat).map (mkRow vid info.viewCount (min a horizon)) := by
      unfold video_rows
      rw [ha]
      simp only [if_neg (by omega : ¬ a < 3), if_neg (by omega : ¬ min a horizon ≤ 0)]
      rfl
    rw [hmin] at heq
    rw [heq, getLast?_range_map _ _ (by omega : 0 < a.toNat)]
    refine ⟨_, rfl, ?_⟩
    show pyInt (((((a.toNat - 1 : ℕ)) : ℚ) + 1) * ((info.viewCount : ℚ) / ((a : ℤ) : ℚ)))
      = (info.viewCount : ℤ)
    rw [hn1]
    have harg : ((a : ℚ) - 1 + 1) * ((info.viewCount : ℚ) / (a : ℚ)) = (info.viewCount : ℚ) := by
      field_simp
    rw [harg, pyInt_natCast]
  · rcases simulate_shape info with ⟨age, hage1, hageeq, heq⟩
    have hagea : age = a := hageeq a ha (by omega)
    subst hagea
    rw [heq, getLast?_range_map _ _ (by omega : 0 < age.toNat)]
    refine ⟨_, rfl, ?_⟩
    show pyInt ((info.viewCount : ℚ) * (((((age.toNat - 1 : ℕ)) : ℚ) + 1) / ((age : ℤ) : ℚ)))
      = (info.viewCount : ℤ)
    rw [hn1]
    have harg : (info.viewCount : ℚ) * (((age : ℚ) - 1 + 1) / (age : ℚ)) = (info.viewCount : ℚ) := by
      field_simp
    rw [harg, pyInt_natCast]

/-- Witness for `anchoring_exact`: a video of age 5 with 100 views,
horizon 10. -/
theorem anchoring_exact_witness :
    (∃ last, (video_rows "v" ⟨100, false, some 5⟩ 10).getLast? = some last ∧
      last.cumulative_views = ((100 : ℕ) : ℤ)) ∧
    (∃ last, (simulate_video_performance ⟨100, false, some 5⟩).getLast? = some last ∧
      last.cumulative_views = ((100 : ℕ) : ℤ)) :=
  anchoring_exact "v" ⟨100, false, some 5⟩ 10 5 rfl (by norm_num) (by norm_num)

/-! Evaluating the binary64 rounding at the inputs of claim C1's failure. -/

theorem int_log_eq_of_zpow_bounds {q : ℚ} {e : ℤ} (hq : 0 < q)
    (h1 : (2 : ℚ) ^ e ≤ q) (h2 : q < (2 : ℚ) ^ (e + 1)) : Int.log 2 q = e := by
  have hA := Int.zpow_log_le_self (b := 2) (R := ℚ) (r := q) (by norm_num) hq
  have hB := Int.lt_zpow_succ_log_self (b := 2) (R := ℚ) (by norm_num) q
  push_cast at hA hB
  by_contra hne
  rcases lt_or_gt_of_ne hne with hlt | hgt
  · have hle : Int.log 2 q + 1 ≤ e := by omega
    have hz : (2 : ℚ) ^ (Int.log 2 q + 1) ≤ (2 : ℚ) ^ e :=
      zpow_le_zpow_right₀ (by norm_num) hle
    exact absurd (lt_of_lt_of_le hB (le_trans hz h1)) (lt_irrefl _)
  · have hle : e + 1 ≤ Int.log 2 q := by omega
    have hz : (2 : ℚ) ^ (e + 1) ≤ (2 : ℚ) ^ (Int.log 2 q) :=
      zpow_le_zpow_right₀ (by norm_num) hle
    exact absurd (lt_of_lt_of_le h2 (le_trans hz hA)) (lt_irrefl _)

theorem roundDouble_pos_eval {q : ℚ} {e : ℤ} (hq : 0 < q)
    (h1 : (2 : ℚ) ^ e ≤ q) (h2 : q < (2 : ℚ) ^ (e + 1)) :
    roundDouble q = (roundNearestEven (q * 2 ^ (52 - e)) : ℚ) * 2 ^ (e - 52) := by
  unfold roundDouble
  rw [if_neg (ne_of_gt hq), if_neg (not_lt.2 (le_of_lt hq)),
    int_log_eq_of_zpow_bounds hq h1 h2]

/-- The double nearest 1/49: its 53-bit significand is 5882252574524729 at
exponent 2^(-58), and it rounds *down* (the discarded fraction is 23/49 of one
unit in the last place, below a half). -/
theorem roundDouble_inv49 :
    roundDouble ((1 : ℚ) / 49) = 5882252574524729 / 288230376151711744 := by
  rw [roundDouble_pos_eval (e := -6) (by norm_num) (by norm_num) (by norm_num)]
  have hm : roundNearestEven ((1 : ℚ) / 49 * 2 ^ (52 - (-6) : ℤ)) = 5882252574524729 := by
    have harg : (1 : ℚ) / 49 * 2 ^ (52 - (-6) : ℤ) = 288230376151711744 / 49 := by
      norm_num
    rw [harg]
    unfold roundNearestEven
    rw [show ⌊(288230376151711744 : ℚ) / 49⌋ = 5882252574524729 from by norm_num]
    rw [if_pos (by norm_num)]
  rw [hm]
  norm_num

/-- Multiplying the double nearest 1/49 back by 49 rounds to
(2^53 - 1)/2^53 = 0.99999999999999988..., strictly below 1. -/
theorem roundDouble_prod49 :
    roundDouble (49 * ((5882252574524729 : ℚ) / 288230376151711744)) =
      9007199254740991 / 9007199254740992 := by
  rw [roundDouble_pos_eval (e := -1) (by norm_num) (by norm_num) (by norm_num)]
  have hm : roundNearestEven
      (49 * ((5882252574524729 : ℚ) / 288230376151711744) * 2 ^ (52 - (-1) : ℤ))
      = 9007199254740991 := by
    have harg : 49 * ((5882252574524729 : ℚ) / 288230376151711744) * 2 ^ (52 - (-1) : ℤ)
        = 288230376151711721 / 32 := by
      norm_num
    rw [harg]
    unfold roundNearestEven
    rw [show ⌊(288230376151711721 : ℚ) / 32⌋ = 9007199254740991 from by norm_num]
    rw [if_pos (by norm_num)]
  rw [hm]
  norm_num

/-- Claim C1 (code bug): exact anchoring is the spec's stated invariant and
plainly the code's intent (the last linear step is designed to land on the
observed total), but under the IEEE binary64 arithmetic Python actually
executes it fails: a video with viewCount 1 and age 49, simulated to horizon
49 (it passes the maturity filter), ends its trajectory with
int(49 * (1/49)) = int(0.9999999999999999) = 0, not 1. -/
theorem C1_anchoring_float_failure :
    ∃ last,
      (video_rows_fp "v" { viewCount := 1, isShort := false, ageDays := some 49 } 49).getLast?
        = some last ∧
      last.cumulative_views = 0 ∧
      (0 : ℤ) ≠
        (({ viewCount := 1, isShort := false, ageDays := some 49 } : VideoInfo).viewCount : ℤ) := by
  unfold video_rows_fp
  simp only [if_neg (by norm_num : ¬ (49 : ℤ) < 3),
    if_neg (by norm_num : ¬ min (49 : ℤ) 49 ≤ 0)]
  rw [getLast?_range_map _ _ (by decide : 0 < (min (49 : ℤ) 49).toNat)]
  refine ⟨_, rfl, ?_, by decide⟩
  show pyInt (roundDouble ((((((min (49 : ℤ) 49).toNat - 1 : ℕ)) : ℚ) + 1) *
      roundDouble
        ((({ viewCount := 1, isShort := false, ageDays := some 49 } : VideoInfo).viewCount : ℚ) /
          ((min (49 : ℤ) 49 : ℤ) : ℚ)))) = 0
  have hmin : min (49 : ℤ) 49 = 49 := by decide
  have harg1 : (((((min (49 : ℤ) 49).toNat - 1 : ℕ)) : ℚ) + 1) = 49 := by
    rw [hmin, show (49 : ℤ).toNat = 49 from rfl]
    norm_num
  have harg2 :
      (({ viewCount := 1, isShort := false, ageDays := some 49 } : VideoInfo).viewCount : ℚ) /
        ((min (49 : ℤ) 49 : ℤ) : ℚ) = (1 : ℚ) / 49 := by
    rw [hmin]
    norm_num
  rw [harg1, harg2, roundDouble_inv49, roundDouble_prod49, pyInt_of_nonneg (by norm_num)]
  norm_num

/-- The default row used to state positional facts via `List.getD`. -/
def dRow : Row := { videoId := "", day := 0, cumulative_views := 0 }

/-- The default row of the target's own performance DataFrame. -/
def dPerf : PerfRow := { day := 0, cumulative_views := 0, projected := false }

/-- Claim C4: within every simulated trajectory, cumulative values never
decrease between consecutive day indices; this holds for the peer trajectories
of `generate_historical_data` (stated on the per-video rows `video_rows`) and
for the target curve of `simulate_video_performance`. -/
theorem C4_monotonicity :
    (∀ (vid : String) (info : VideoInfo) (max_days : ℤ) (i : ℕ),
      i + 1 < (video_rows vid info max_days).length →
      ((video_rows vid info max_days).getD i dRow).cumulative_views ≤
        ((video_rows vid info max_days).getD (i + 1) dRow).cumulative_views) ∧
    (∀ (info : VideoInfo) (i : ℕ),
      i + 1 < (simulate_video_performance info).length →
      ((simulate_video_performance info).getD i dPerf).cumulative_views ≤
        ((simulate_video_performance info).getD (i + 1) dPerf).cumulative_views) := by
  constructor
  · intro vid info max_days i hi
    rcases video_rows_shape vid info max_days with hnil | ⟨a, hage, h3, hlim, heq⟩
    · rw [hnil] at hi; simp at hi
    · rw [heq] at hi ⊢
      rw [List.length_map, List.length_range] at hi
      rw [getD_range_map _ _ _ i (by omega), getD_range_map _ _ _ (i + 1) (by omega)]
      have hl0 : (0 : ℚ) ≤ ((min a max_days : ℤ) : ℚ) := by
        exact_mod_cast le_of_lt hlim
      apply pyInt_mono
      · exact mul_nonneg (by positivity) (div_nonneg (by positivity) hl0)
      · apply mul_le_mul_of_nonneg_right _ (div_nonneg (by positivity) hl0)
        push_cast
        linarith
  · intro info i hi
    rcases simulate_shape info with ⟨age, hage1, _, heq⟩
    rw [heq] at hi ⊢
    rw [List.length_map, List.length_range] at hi
    rw [getD_range_map _ _ _ i (by omega), getD_range_map _ _ _ (i + 1) (by omega)]
    have hl0 : (0 : ℚ) < ((age : ℤ) : ℚ) := by exact_mod_cast (by omega : (0 : ℤ) < age)
    apply pyInt_mono
    · exact mul_nonneg (by positivity) (div_nonneg (by positivity) (le_of_lt hl0))
    · apply mul_le_mul_of_nonneg_left _ (by positivity)
      rw [div_le_div_iff₀ hl0 hl0]
      push_cast
      nlinarith [le_of_lt hl0]

/-- Witness for C4: the first two rows of the age-5 video's trajectory, and of
its own performance curve. -/
theorem C4_monotonicity_witness :
    (0 + 1 < (video_rows "v" ⟨100, false, some 5⟩ 10).length ∧
      ((video_rows "v" ⟨100, false, some 5⟩ 10).getD 0 dRow).cumulative_views ≤
        ((video_rows "v" ⟨100, false, some 5⟩ 10).getD (0 + 1) dRow).cumulative_views) ∧
    (0 + 1 < (simulate_video_performance ⟨100, false, some 5⟩).length ∧
      ((simulate_video_performance ⟨100, false, some 5⟩).getD 0 dPerf).cumulative_views ≤
        ((simulate_video_performance ⟨100, false, some 5⟩).getD (0 + 1) dPerf).cumulative_views) := by
  have hlen1 : 0 + 1 < (video_rows "v" ⟨100, false, some 5⟩ 10).length := by
    unfold video_rows
    simp only [if_neg (by norm_num : ¬ (5 : ℤ) < 3),
      if_neg (by norm_num : ¬ min (5 : ℤ) 10 ≤ 0)]
    rw [List.length_map, List.length_range]
    omega
  have hlen2 : 0 + 1 < (simulate_video_performance ⟨100, false, some 5⟩).length := by
    unfold simulate_video_performance
    simp only [if_neg (by norm_num : ¬ (5 : ℤ) < 1)]
    rw [List.length_map, List.length_range]
    omega
  exact ⟨⟨hlen1, C4_monotonicity.1 "v" ⟨100, false, some 5⟩ 10 0 hlen1⟩,
    ⟨hlen2, C4_monotonicity.2 ⟨100, false, some 5⟩ 0 hlen2⟩⟩

/-! Monotonicity of the linear-interpolation quantile. -/

theorem getD_sorted_mono {s : List ℚ} (hs : List.Sorted (· ≤ ·) s) {i j : ℕ}
    (hij : i ≤ j) (hj : j < s.length) : s.getD i 0 ≤ s.getD j 0 := by
  rw [List.getD_eq_getElem _ _ (lt_of_le_of_lt hij hj), List.getD_eq_getElem _ _ hj]
  have := hs.rel_get_of_le (a := ⟨i, lt_of_le_of_lt hij hj⟩) (b := ⟨j, hj⟩)
    (Fin.mk_le_mk.2 hij)
  simpa using this

theorem interpAt_mono {s : List ℚ} (hs : List.Sorted (· ≤ ·) s) (hne : s ≠ [])
    {h1 h2 : ℚ} (h0 : 0 ≤ h1) (h12 : h1 ≤ h2) (hub : h2 ≤ (s.length : ℚ) - 1) :
    interpAt s h1 ≤ interpAt s h2 := by
  have hn : 0 < s.length := List.length_pos.2 hne
  have h02 : 0 ≤ h2 := le_trans h0 h12
  have hz1 : ((⌊h1⌋.toNat : ℤ)) = ⌊h1⌋ := Int.toNat_of_nonneg (Int.floor_nonneg.2 h0)
  have hz2 : ((⌊h2⌋.toNat : ℤ)) = ⌊h2⌋ := Int.toNat_of_nonneg (Int.floor_nonneg.2 h02)
  have hc1l : ((⌊h1⌋.toNat : ℕ) : ℚ) ≤ h1 := by
    have := Int.floor_le h1
    rw [← hz1] at this
    exact_mod_cast this
  have hc1u : h1 < ((⌊h1⌋.toNat : ℕ) : ℚ) + 1 := by
    have := Int.lt_floor_add_one h1
    rw [← hz1] at this
    exact_mod_cast this
  have hc2l : ((⌊h2⌋.toNat : ℕ) : ℚ) ≤ h2 := by
    have := Int.floor_le h2
    rw [← hz2] at this
    exact_mod_cast this
  have hi12 : ⌊h1⌋.toNat ≤ ⌊h2⌋.toNat := by
    have := Int.floor_le_floor h12
    omega
  have hi2n : ⌊h2⌋.toNat < s.length := by
    have : ((⌊h2⌋.toNat : ℕ) : ℚ) ≤ (s.length : ℚ) - 1 := le_trans hc2l hub
    have h2' : ((⌊h2⌋.toNat : ℕ) : ℚ) + 1 ≤ (s.length : ℚ) := by linarith
    exact_mod_cast h2'
  rcases Nat.lt_or_ge ⌊h1⌋.toNat ⌊h2⌋.toNat with hlt | hge
  · -- strictly different cells
    have hi1n : ⌊h1⌋.toNat + 1 < s.length := lt_of_le_of_lt hlt hi2n
    have hstep1 : interpAt s h1 ≤ s.getD (⌊h1⌋.toNat + 1) 0 := by
      unfold interpAt
      rw [if_pos hi1n]
      have hΔ : 0 ≤ s.getD (⌊h1⌋.toNat + 1) 0 - s.getD ⌊h1⌋.toNat 0 := by
        have := getD_sorted_mono hs (Nat.le_succ _) hi1n
        linarith
      nlinarith [hc1l, hc1u]
    have hstep2 : s.getD (⌊h1⌋.toNat + 1) 0 ≤ s.getD ⌊h2⌋.toNat 0 :=
      getD_sorted_mono hs hlt hi2n
    have hstep3 : s.getD ⌊h2⌋.toNat 0 ≤ interpAt s h2 := by
      unfold interpAt
      by_cases hc : ⌊h2⌋.toNat + 1 < s.length
      · rw [if_pos hc]
        have hΔ : 0 ≤ s.getD (⌊h2⌋.toNat + 1) 0 - s.getD ⌊h2⌋.toNat 0 := by
          have := getD_sorted_mono hs (Nat.le_succ _) hc
          linarith
        nlinarith [hc2l]
      · rw [if_neg hc]
        exact getD_sorted_mono hs (by omega) (by omega)
    exact le_trans (le_trans hstep1 hstep2) hstep3
  · -- same cell
    have heq : ⌊h1⌋.toNat = ⌊h2⌋.toNat := le_antisymm hi12 hge
    unfold interpAt
    rw [← heq]
    by_cases hc : ⌊h1⌋.toNat + 1 < s.length
    · rw [if_pos hc, if_pos hc]
      have hΔ : 0 ≤ s.getD (⌊h1⌋.toNat + 1) 0 - s.getD ⌊h1⌋.toNat 0 := by
        have := getD_sorted_mono hs (Nat.le_succ _) hc
        linarith
      nlinarith
    · rw [if_neg hc, if_neg hc]

theorem quantileLin_mono (xs : List ℚ) (hne : xs ≠ []) {q1 q2 : ℚ}
    (h0 : 0 ≤ q1) (h12 : q1 ≤ q2) (h21 : q2 ≤ 1) :
    quantileLin xs q1 ≤ quantileLin xs q2 := by
  have hs := List.sorted_insertionSort (· ≤ ·) xs
  have hlen : (List.insertionSort (· ≤ ·) xs).length = xs.length :=
    List.length_insertionSort _ _
  have hxs : 0 < xs.length := List.length_pos.2 hne
  have hne2 : List.insertionSort (· ≤ ·) xs ≠ [] := by
    apply List.length_pos.mp
    omega
  have hnz : ¬ (List.insertionSort (· ≤ ·) xs).length = 0 := by omega
  unfold quantileLin
  rw [if_neg hnz, if_neg hnz]
  have hn1 : (0 : ℚ) ≤ ((List.insertionSort (· ≤ ·) xs).length : ℚ) - 1 := by
    have : (1 : ℚ) ≤ ((List.insertionSort (· ≤ ·) xs).length : ℚ) := by
      exact_mod_cast by omega
    linarith
  apply interpAt_mono hs hne2
  · exact mul_nonneg h0 hn1
  · exact mul_le_mul_of_nonneg_right h12 hn1
  · nlinarith

theorem dayValues_ne_nil {df : List Row} {d : ℕ} (hd : d ∈ benchDays df) :
    dayValues df d ≠ [] := by
  unfold benchDays at hd
  rw [List.mem_insertionSort, List.mem_dedup] at hd
  rcases List.mem_map.1 hd with ⟨r, hr, hrd⟩
  unfold dayValues
  intro hnil
  rw [List.map_eq_nil_iff] at hnil
  have : r ∈ df.filter (fun r => r.day == d) :=
    List.mem_filter.2 ⟨hr, by simp [hrd]⟩
  rw [hnil] at this
  cases this

/-- Claim C7: every BenchmarkRow produced by `calculate_benchmark` satisfies
lowerBand ≤ median ≤ upperBand, and channelAverage = (lowerBand+upperBand)/2
lies between lowerBand and upperBand. -/
theorem C7_percentile_ordering (df : List Row) (row : BenchRow)
    (hrow : row ∈ calculate_benchmark df) :
    row.lower_band ≤ row.median ∧ row.median ≤ row.upper_band ∧
    row.channel_average = (row.lower_band + row.upper_band) / 2 ∧
    row.lower_band ≤ row.channel_average ∧ row.channel_average ≤ row.upper_band := by
  unfold calculate_benchmark at hrow
  rcases List.mem_map.1 hrow with ⟨d, hd, hrow_eq⟩
  have hne := dayValues_ne_nil hd
  have h14 : quantileLin (dayValues df d) (1 / 4) ≤ quantileLin (dayValues df d) (1 / 2) :=
    quantileLin_mono _ hne (by norm_num) (by norm_num) (by norm_num)
  have h24 : quantileLin (dayValues df d) (1 / 2) ≤ quantileLin (dayValues df d) (3 / 4) :=
    quantileLin_mono _ hne (by norm_num) (by norm_num) (by norm_num)
  rw [← hrow_eq]
  exact ⟨h14, h24, rfl, by simp only; linarith, by simp only; linarith⟩

/-- The single-row DataFrame used to witness C7. -/
def dfW7 : List Row := [{ videoId := "a", day := 0, cumulative_views := 2 }]

/-- The benchmark row of `dfW7`, used to witness C7. -/
def rowW7 : BenchRow :=
  { day := 0, median := quantileLin (dayValues dfW7 0) (1 / 2),
    count := (dayValues dfW7 0).length,
    lower_band := quantileLin (dayValues dfW7 0) (1 / 4),
    upper_band := quantileLin (dayValues dfW7 0) (3 / 4),
    channel_average :=
      (quantileLin (dayValues dfW7 0) (1 / 4) + quantileLin (dayValues dfW7 0) (3 / 4)) / 2 }

/-- Witness for C7 on the one-row benchmark of `dfW7`. -/
theorem C7_percentile_ordering_witness :
    rowW7.lower_band ≤ rowW7.median ∧ rowW7.median ≤ rowW7.upper_band ∧
    rowW7.channel_average = (rowW7.lower_band + rowW7.upper_band) / 2 ∧
    rowW7.lower_band ≤ rowW7.channel_average ∧ rowW7.channel_average ≤ rowW7.upper_band :=
  C7_percentile_ordering dfW7 rowW7 (by
    unfold calculate_benchmark
    have hdays : benchDays dfW7 = [0] := by decide
    rw [hdays]
    simp only [List.map_cons, List.map_nil]
    exact List.mem_singleton.2 rfl)

/-- Claim C5: when the channel average at the looked-up day is zero,
`classify_outlier_score` returns the saturating sentinel score 999.9 and the
category "Significant Positive Outlier"; being a total function of its two
arguments, it can raise no divide-by-zero (or any other) fault. -/
theorem C5_zero_channel_average (view_count : ℚ) :
    classify_outlier_score view_count 0 = ("Significant Positive Outlier", 9999 / 10) := by
  simp [classify_outlier_score]

/-- Claim C6: for every target value and positive channel average, with
r = targetValue / channelAverage, the scorer returns the first matching
category scanning top-down: r ≥ 2 significant positive, r ≥ 1.5 positive,
r ≥ 1.2 slight positive, r ≥ 0.8 normal, r ≥ 0.5 slight negative, otherwise
significant negative, always paired with r itself; the result is a pure
function of the two arguments. -/
theorem C6_classification_thresholds (view_count channel_avg : ℚ)
    (h : 0 < channel_avg) :
    (2 ≤ view_count / channel_avg →
      classify_outlier_score view_count channel_avg
        = ("Significant Positive Outlier", view_count / channel_avg)) ∧
    (view_count / channel_avg < 2 → 3 / 2 ≤ view_count / channel_avg →
      classify_outlier_score view_count channel_avg
        = ("Positive Outlier", view_count / channel_avg)) ∧
    (view_count / channel_avg < 3 / 2 → 6 / 5 ≤ view_count / channel_avg →
      classify_outlier_score view_count channel_avg
        = ("Slight Positive Outlier", view_count / channel_avg)) ∧
    (view_count / channel_avg < 6 / 5 → 4 / 5 ≤ view_count / channel_avg →
      classify_outlier_score view_count channel_avg
        = ("Normal Performance", view_count / channel_avg)) ∧
    (view_count / channel_avg < 4 / 5 → 1 / 2 ≤ view_count / channel_avg →
      classify_outlier_score view_count channel_avg
        = ("Slight Negative Outlier", view_count / channel_avg)) ∧
    (view_count / channel_avg < 1 / 2 →
      classify_outlier_score view_count channel_avg
        = ("Significant Negative Outlier", view_count / channel_avg)) := by
  have h0 : ¬ channel_avg ≤ 0 := not_le.2 h
  simp only [classify_outlier_score, if_neg h0]
  refine ⟨fun h2 => by rw [if_pos h2],
    fun hlt h15 => by rw [if_neg (by linarith), if_pos h15],
    fun hlt h12 => by rw [if_neg (by linarith), if_neg (by linarith), if_pos h12],
    fun hlt h08 => by
      rw [if_neg (by linarith), if_neg (by linarith), if_neg (by linarith), if_pos h08],
    fun hlt h05 => by
      rw [if_neg (by linarith), if_neg (by linarith), if_neg (by linarith),
        if_neg (by linarith), if_pos h05],
    fun hlt => by
      rw [if_neg (by linarith), if_neg (by linarith), if_neg (by linarith),
        if_neg (by linarith), if_neg (by linarith)]⟩

/-- Witness for C6 at view_count 13, channel_avg 10 (r = 1.3, slight positive). -/
theorem C6_classification_thresholds_witness :
    (0 : ℚ) < 10 ∧
    classify_outlier_score 13 10 = ("Slight Positive Outlier", (13 : ℚ) / 10) := by
  refine ⟨by norm_num, ?_⟩
  exact (C6_classification_thresholds 13 10 (by norm_num)).2.2.1 (by norm_num) (by norm_num)

/-- Claim C9: with a requested category flag, every trajectory row produced by
`generate_historical_data` comes from an entity whose `isShort` flag equals the
requested flag, so one benchmark computation never mixes categories. -/
theorem C9_category_purity (video_map : List (String × VideoInfo)) (max_days : ℤ)
    (b : Bool) (row : Row)
    (hrow : row ∈ generate_historical_data video_map max_days (some b)) :
    ∃ info, (row.videoId, info) ∈ video_map ∧ info.isShort = b := by
  unfold generate_historical_data at hrow
  rcases List.mem_flatMap.1 hrow with ⟨p, hp, hin⟩
  have hin1 : row ∈ (if p.2.isShort = b then video_rows p.1 p.2 max_days else []) := hin
  by_cases hb : p.2.isShort = b
  · rw [if_pos hb] at hin1
    rcases mem_video_rows hin1 with ⟨a, _, _, _, hvid, _, _⟩
    refine ⟨p.2, ?_, hb⟩
    rw [hvid, Prod.mk.eta]
    exact hp
  · rw [if_neg hb] at hin1
    cases hin1

/-- Witness for C9: the day-0 row of the age-5 long-form video. -/
theorem C9_category_purity_witness :
    ∃ info, ((mkRow "v" 100 (min (5 : ℤ) 10) 0).videoId, info)
        ∈ [("v", (⟨100, false, some 5⟩ : VideoInfo))] ∧ info.isShort = false :=
  C9_category_purity [("v", ⟨100, false, some 5⟩)] 10 false (mkRow "v" 100 (min (5 : ℤ) 10) 0)
    (by
      unfold generate_historical_data
      simp only [List.flatMap_cons, List.flatMap_nil, List.append_nil]
      show mkRow "v" 100 (min (5 : ℤ) 10) 0 ∈
        (if (false : Bool) = false then
          video_rows "v" ⟨100, false, some 5⟩ 10 else [])
      rw [if_pos rfl]
      unfold video_rows
      simp only [if_neg (by norm_num : ¬ (5 : ℤ) < 3),
        if_neg (by norm_num : ¬ min (5 : ℤ) 10 ≤ 0)]
      exact List.mem_map.2 ⟨0, by rw [List.mem_range]; omega, rfl⟩)

/-- Claim C10: every trajectory row emitted by `generate_historical_data` comes
from some entity of the map, has a day index d with 0 ≤ d < min(age, max_days)
for that entity's parsed age, and carries a cumulative value that never exceeds
that entity's observed viewCount total. -/
theorem C10_row_bounds (video_map : List (String × VideoInfo)) (max_days : ℤ)
    (flag : Option Bool) (row : Row)
    (hrow : row ∈ generate_historical_data video_map max_days flag) :
    ∃ info a, (row.videoId, info) ∈ video_map ∧ info.ageDays = some a ∧
      0 ≤ (row.day : ℤ) ∧ (row.day : ℤ) < min a max_days ∧
      row.cumulative_views ≤ (info.viewCount : ℤ) := by
  unfold generate_historical_data at hrow
  rcases List.mem_flatMap.1 hrow with ⟨p, hp, hin⟩
  have hin2 : row ∈ video_rows p.1 p.2 max_days := by
    cases flag with
    | none => exact hin
    | some b =>
      have hin1 : row ∈ (if p.2.isShort = b then video_rows p.1 p.2 max_days else []) := hin
      by_cases hb : p.2.isShort = b
      · rwa [if_pos hb] at hin1
      · rw [if_neg hb] at hin1
        cases hin1
  rcases mem_video_rows hin2 with ⟨a, hage, _, _, hvid, hday, _⟩
  refine ⟨p.2, a, ?_, hage, by positivity, hday,
    video_rows_cumulative_nonneg_le hin2⟩
  rw [hvid, Prod.mk.eta]
  exact hp

/-- Witness for C10: the day-0 row of the age-5 video with no category
filter. -/
theorem C10_row_bounds_witness :
    ∃ info a, ((mkRow "v" 100 (min (5 : ℤ) 10) 0).videoId, info)
        ∈ [("v", (⟨100, false, some 5⟩ : VideoInfo))] ∧
      info.ageDays = some a ∧
      0 ≤ ((mkRow "v" 100 (min (5 : ℤ) 10) 0).day : ℤ) ∧
      ((mkRow "v" 100 (min (5 : ℤ) 10) 0).day : ℤ) < min a 10 ∧
      (mkRow "v" 100 (min (5 : ℤ) 10) 0).cumulative_views ≤ (info.viewCount : ℤ) :=
  C10_row_bounds [("v", ⟨100, false, some 5⟩)] 10 none (mkRow "v" 100 (min (5 : ℤ) 10) 0)
    (by
      unfold generate_historical_data
      simp only [List.flatMap_cons, List.flatMap_nil, List.append_nil]
      unfold video_rows
      simp only [if_neg (by norm_num : ¬ (5 : ℤ) < 3),
        if_neg (by norm_num : ¬ min (5 : ℤ) 10 ≤ 0)]
      exact List.mem_map.2 ⟨0, by rw [List.mem_range]; omega, rfl⟩)

/-- Claim C8: an entity whose parsed age is 0, or whose
`limit = min age_days max_days` is at most 0, contributes no trajectory rows:
`generate_historical_data` silently filters it out (and, being total, raises
no error). -/
theorem C8_degenerate_age (vid : String) (info : VideoInfo) (max_days a : ℤ)
    (ha : info.ageDays = some a) (hdeg : a = 0 ∨ min a max_days ≤ 0) :
    video_rows vid info max_days = [] ∧
    ∀ flag : Option Bool, generate_historical_data [(vid, info)] max_days flag = [] := by
  have hv : video_rows vid info max_days = [] := by
    unfold video_rows
    rw [ha]
    rcases hdeg with h0 | hlim
    · subst h0; norm_num
    · by_cases h3 : a < 3
      · simp [h3]
      · simp only [if_neg h3, if_pos hlim]
  refine ⟨hv, fun flag => ?_⟩
  unfold generate_historical_data
  cases flag with
  | none => simp [hv]
  | some b =>
    by_cases hb : info.isShort = b <;> simp [hb, hv]

/-- Witness for C8: a video published today (age 0) yields no rows. -/
theorem C8_degenerate_age_witness :
    video_rows "v" ⟨100, false, some 0⟩ 10 = [] ∧
    ∀ flag : Option Bool,
      generate_historical_data [("v", ⟨100, false, some 0⟩)] 10 flag = [] :=
  C8_degenerate_age "v" ⟨100, false, some 0⟩ 10 0 rfl (Or.inl rfl)

/-! The spec's worked scenario (claim C2). -/

/-- The three peer rows of the worked scenario: day-30 cumulative values
6000, 8000 and 12000. -/
def dfC2 : List Row :=
  [{ videoId := "p1", day := 30, cumulative_views := 6000 },
   { videoId := "p2", day := 30, cumulative_views := 8000 },
   { videoId := "p3", day := 30, cumulative_views := 12000 }]

theorem calc_bench_C2 :
    calculate_benchmark dfC2 =
      [{ day := 30, median := 8000, count := 3, lower_band := 7000,
         upper_band := 10000, channel_average := 8500 }] := by
  unfold calculate_benchmark
  have hdays : benchDays dfC2 = [30] := by decide
  have hvals : dayValues dfC2 30 = [6000, 8000, 12000] := by decide
  rw [hdays]
  simp only [List.map_cons, List.map_nil, hvals]
  have hsort : List.insertionSort (· ≤ ·) ([6000, 8000, 12000] : List ℚ)
      = [6000, 8000, 12000] := by decide
  norm_num [quantileLin, interpAt, hsort]

/-- Claim C2 counterexample: on the scenario data the linear-interpolation
75th percentile is 10000 (not 11000), so the claimed aggregate values are
wrong; moreover a ratio of 10000/9000 is below the 1.2 threshold, so even the
claimed ratio would classify as "Normal Performance", not "Slight Positive
Outlier". -/
theorem C2_scenario_counterexample :
    ¬ ((calculate_benchmark dfC2).map
          (fun r => (r.lower_band, r.upper_band, r.channel_average))
        = [(7000, 11000, 9000)] ∧
       (classify_outlier_score 10000 9000).1 = "Slight Positive Outlier") := by
  intro hclaim
  rcases hclaim with ⟨hmap, _⟩
  rw [calc_bench_C2] at hmap
  simp only [List.map_cons, List.map_nil, List.cons.injEq, Prod.mk.injEq] at hmap
  have h11 : (10000 : ℚ) = 11000 := hmap.1.2.1
  norm_num at h11

/-- Claim C2 amended: the scenario with the code's arithmetic: lowerBand 7000,
upperBand 10000 (linear-interpolation 25th/75th percentiles of 6000, 8000,
12000), channelAverage 8500, and a target value of 10000 gives ratio
10000/8500 = 20/17 (about 1.18) and category "Normal Performance". -/
theorem C2_scenario_amended :
    calculate_benchmark dfC2 =
      [{ day := 30, median := 8000, count := 3, lower_band := 7000,
         upper_band := 10000, channel_average := 8500 }] ∧
    classify_outlier_score 10000 8500 = ("Normal Performance", 20 / 17) := by
  refine ⟨calc_bench_C2, ?_⟩
  unfold classify_outlier_score
  rw [if_neg (by norm_num), if_neg (by norm_num), if_neg (by norm_num),
    if_neg (by norm_num), if_pos (by norm_num)]
  rw [Prod.mk.injEq]
  norm_num

/-! The scorer's benchmark-row lookup (claim C3). -/

/-- A benchmark with a gap in its day indices (days 0 and 5 only), used to
refute the claimed largest-index-below lookup rule. -/
def benchC3 : List BenchRow :=
  [{ day := 0, median := 5, count := 1, lower_band := 4, upper_band := 6,
     channel_average := 5 },
   { day := 5, median := 9, count := 1, lower_band := 8, upper_band := 10,
     channel_average := 9 }]

/-- Claim C3 counterexample: for the gapped benchmark `benchC3` and target day
index 3 (video age 4), the row with the largest dayIndex at most
min(3, 5) is the day-0 row (channel average 5), but the code's exact-equality
lookup finds no row with day 3 and silently uses channel average 1 instead. -/
theorem C3_lookup_counterexample :
    ¬ (∀ r : BenchRow, specLookupRow benchC3 4 = some r →
        lookup_channel_avg benchC3 4 = r.channel_average) := by
  intro hclaim
  have hspec : specLookupRow benchC3 4 =
      some { day := 0, median := 5, count := 1, lower_band := 4, upper_band := 6,
             channel_average := 5 } := rfl
  have hcode : lookup_channel_avg benchC3 4 = 1 := rfl
  have h := hclaim _ hspec
  rw [hcode] at h
  norm_num at h

/-- Claim C3 amended: an empty historical DataFrame makes the caller stop with
the insufficient-data warning before any score is produced; and on a benchmark
whose day indices are duplicate-free and cover every index up to the maximum
(as the pipeline's benchmarks do), the code's exact-equality lookup at
min(targetDayIndex, maxAvailableDayIndex) returns precisely the row with the
largest dayIndex at most that value. -/
theorem C3_lookup_amended :
    (∀ (info_map : List (String × VideoInfo)) (video_age : ℤ) (b : Bool) (vc : ℕ),
      generate_historical_data info_map video_age (some b) = [] →
      outlier_flow info_map video_age b vc = ScoreOutcome.insufficientData) ∧
    (∀ (bench : List BenchRow) (video_age : ℤ),
      bench ≠ [] → 1 ≤ video_age →
      (∀ d : ℕ, (d : ℤ) ≤ (benchMaxDay bench : ℤ) → ∃ r ∈ bench, r.day = d) →
      (bench.map fun r => r.day).Nodup →
      ∃ r ∈ bench, specLookupRow bench video_age = some r ∧
        (r.day : ℤ) = min (video_age - 1) (benchMaxDay bench : ℤ) ∧
        lookup_channel_avg bench video_age = r.channel_average) := by
  constructor
  · intro info_map video_age b vc hdf
    unfold outlier_flow
    rw [hdf]
    rfl
  · intro bench video_age hne hage hcontig hnodup
    have hfd0 : 0 ≤ min (video_age - 1) (benchMaxDay bench : ℤ) := by
      have h2 : (0 : ℤ) ≤ (benchMaxDay bench : ℤ) := Int.natCast_nonneg _
      omega
    have hfdmax : min (video_age - 1) (benchMaxDay bench : ℤ) ≤ (benchMaxDay bench : ℤ) :=
      min_le_right _ _
    obtain ⟨rstar, hrstar_mem, hrstar_day⟩ :=
      hcontig (min (video_age - 1) (benchMaxDay bench : ℤ)).toNat (by omega)
    have hrstar_dayZ : (rstar.day : ℤ) = min (video_age - 1) (benchMaxDay bench : ℤ) := by
      omega
    -- the code's find? succeeds
    have hex : ∃ x ∈ bench,
        ((x.day : ℤ) == min (video_age - 1) (benchMaxDay bench : ℤ)) = true :=
      ⟨rstar, hrstar_mem, by simp [hrstar_dayZ]⟩
    have hsome : (bench.find? fun r =>
        (r.day : ℤ) == min (video_age - 1) (benchMaxDay bench : ℤ)).isSome :=
      List.find?_isSome.2 hex
    obtain ⟨r2, hr2⟩ := Option.isSome_iff_exists.1 hsome
    have hr2p := List.find?_some hr2
    have hr2day : (r2.day : ℤ) = min (video_age - 1) (benchMaxDay bench : ℤ) := by
      simpa using hr2p
    have hr2mem : r2 ∈ bench := List.mem_of_find?_eq_some hr2
    -- the spec's argmax lookup returns the same row
    have hr2_inf : r2 ∈ bench.filter fun r =>
        decide ((r.day : ℤ) ≤ min (video_age - 1) (benchMaxDay bench : ℤ)) :=
      List.mem_filter.2 ⟨hr2mem, by simp [hr2day]⟩
    obtain ⟨m, hm⟩ : ∃ m, List.argmax (fun r => r.day)
        (bench.filter fun r =>
          decide ((r.day : ℤ) ≤ min (video_age - 1) (benchMaxDay bench : ℤ))) = some m := by
      cases harg : List.argmax (fun r => r.day)
          (bench.filter fun r =>
            decide ((r.day : ℤ) ≤ min (video_age - 1) (benchMaxDay bench : ℤ))) with
      | none =>
        rw [List.argmax_eq_none] at harg
        rw [harg] at hr2_inf
        cases hr2_inf
      | some m => exact ⟨m, rfl⟩
    have hm_memf := List.argmax_mem hm
    have hm_mem : m ∈ bench := (List.mem_filter.1 hm_memf).1
    have hm_le : (m.day : ℤ) ≤ min (video_age - 1) (benchMaxDay bench : ℤ) := by
      have := (List.mem_filter.1 hm_memf).2
      simpa using this
    have hday_le : r2.day ≤ m.day := List.le_of_mem_argmax hr2_inf hm
    have hmday : m.day = r2.day := by omega
    have hmr2 : m = r2 := List.inj_on_of_nodup_map hnodup hm_mem hr2mem hmday
    refine ⟨r2, hr2mem, ?_, hr2day, ?_⟩
    · unfold specLookupRow
      rw [hm, hmr2]
    · unfold lookup_channel_avg
      rw [hr2]

/-- Day-0 row of the benchmark used to witness the amended C3. -/
def rowW3a : BenchRow :=
  { day := 0, median := 2, count := 1, lower_band := 1, upper_band := 3,
    channel_average := 2 }

/-- Day-1 row of the benchmark used to witness the amended C3. -/
def rowW3b : BenchRow :=
  { day := 1, median := 4, count := 1, lower_band := 3, upper_band := 5,
    channel_average := 4 }

/-- The gap-free benchmark used to witness the amended C3. -/
def benchW3 : List BenchRow := [rowW3a, rowW3b]

/-- Witness for the amended C3 on `benchW3` at video age 2. -/
theorem C3_lookup_amended_witness :
    ∃ r ∈ benchW3, specLookupRow benchW3 2 = some r ∧
      (r.day : ℤ) = min ((2 : ℤ) - 1) (benchMaxDay benchW3 : ℤ) ∧
      lookup_channel_avg benchW3 2 = r.channel_average :=
  C3_lookup_amended.2 benchW3 2 (by simp [benchW3]) (by norm_num)
    (by
      intro d hd
      have hmax : benchMaxDay benchW3 = 1 := rfl
      rw [hmax] at hd
      have hd1 : d ≤ 1 := by exact_mod_cast hd
      interval_cases d
      · exact ⟨rowW3a, by simp [benchW3], rfl⟩
      · exact ⟨rowW3b, by simp [benchW3], rfl⟩)
    (by
      have : (benchW3.map fun r => r.day) = [0, 1] := rfl
      rw [this]
      decide)

end Outlier
